import Mathlib

/-!
Shallow embedding of `marcelbra/secret-santa`.

`src/algorithm.py` defines a `Matcher` holding a list of sets of string
elements (`self.sets`) and a mutable accumulator `self.matchs`
(a `defaultdict(str)` created once in `__init__` and never reset).
`generate_matches` walks a worklist of all `(element, set-index)` pairs,
choosing for each element a random candidate from another set whose value is
not yet used as a target; `verify_matches` checks the accumulated mapping;
`test_matcher` loops `generate_matches` / `verify_matches` until the latter
returns true.

Python sets are modelled as `List String` (any iteration order of a Python
set is some list, and every theorem below quantifies over the lists, so this
is a generalisation over the unspecified set iteration order).  The Python
dict `self.matchs` is modelled as an association list with the dict's
insertion-order semantics: writing to an existing key updates in place,
writing to a fresh key appends.  `random.choice` is modelled by an oracle
`c : Nat → Nat` together with a running call counter `k`: the `k`-th call on
a non-empty pool `l` returns `l[c k % l.length]`, which ranges over exactly
the elements of `l` as the oracle varies.
-/

abbrev Element := String

/-- The pair of fields of a Python `Matcher` object: `self.sets` and
`self.matchs`. -/
structure MatcherState where
  sets : List (List Element)
  matchs : List (Element × Element)
deriving Repr, DecidableEq

/-- `elements = [(elem, idx) for idx, s in enumerate(self.sets) for elem in s]`
(line 23 of `algorithm.py`). -/
def elementsOf (sets : List (List Element)) : List (Element × Nat) :=
  (sets.enum.map (fun p => p.2.map (fun e => (e, p.1)))).flatten

/-- `self.matchs.values()` as a list. -/
def valuesOf (m : List (Element × Element)) : List Element :=
  m.map Prod.snd

/-- `self.matchs.keys()` as a list. -/
def keysOf (m : List (Element × Element)) : List Element :=
  m.map Prod.fst

/-- `self.matchs[current_elem] = match_elem`: Python-dict insertion-order
update (replace in place if the key exists, append otherwise). -/
def updateMatch (m : List (Element × Element)) (k v : Element) :
    List (Element × Element) :=
  if k ∈ keysOf m then
    m.map (fun p => if p.1 = k then (k, v) else p)
  else
    m ++ [(k, v)]

/-- The candidate pool for one loop iteration: `possible_matches` from the
still-`unmatched` suffix (lines 33–36), widened to the whole `elements` list
when empty (lines 39–45). -/
def poolFor (elements rest : List (Element × Nat)) (e : Element) (gi : Nat)
    (m : List (Element × Element)) : List (Element × Nat) :=
  if rest.filter (fun p => decide (p.2 ≠ gi ∧ p.1 ∉ valuesOf m)) = [] then
    elements.filter (fun p => decide (p.2 ≠ gi ∧ p.1 ≠ e ∧ p.1 ∉ valuesOf m))
  else
    rest.filter (fun p => decide (p.2 ≠ gi ∧ p.1 ∉ valuesOf m))

/-- The `while unmatched:` loop of `generate_matches` (lines 29–51).
`elements` is the full worklist, `unmatched` the remaining suffix, `m` the
current `self.matchs`, `c` the random oracle and `k` the number of
`random.choice` calls made so far.  Returns the final `self.matchs` and the
updated call counter. -/
def genLoop (elements : List (Element × Nat)) :
    List (Element × Nat) → List (Element × Element) → (Nat → Nat) → Nat →
    List (Element × Element) × Nat
  | [], m, _, k => (m, k)
  | (e, gi) :: rest, m, c, k =>
    if poolFor elements rest e gi m = [] then
      genLoop elements rest m c k
    else
      genLoop elements rest
        (updateMatch m e
          ((poolFor elements rest e gi m).getD
            (c k % (poolFor elements rest e gi m).length) ("", 0)).1)
        c (k + 1)

/-- `Matcher.generate_matches` (lines 20–52): builds the worklist from
`self.sets` and runs the loop, mutating `self.matchs`.  The returned dict
`dict(self.matchs)` equals the final `matches` field of the state. -/
def generate_matches (st : MatcherState) (c : Nat → Nat) (k : Nat) :
    MatcherState × Nat :=
  let elements := elementsOf st.sets
  let r := genLoop elements elements st.matchs c k
  (⟨st.sets, r.1⟩, r.2)

/-- `next(i for i, s in enumerate(self.sets) if elem in s)`: index of the
first set containing `e`, `none` when the generator is exhausted (in Python a
`StopIteration` escapes `verify_matches`). -/
def findSetIdx (sets : List (List Element)) (e : Element) : Option Nat :=
  (sets.enum.find? (fun p => p.2.contains e)).map Prod.fst

/-- The `for elem, match in self.matchs.items():` loop of `verify_matches`
(lines 65–69): `some false` at the first same-set pair, `none` when a set
lookup fails (the Python code would raise), `some true` otherwise. -/
def checkPairs (sets : List (List Element)) :
    List (Element × Element) → Option Bool
  | [] => some true
  | (e, v) :: rest =>
    match findSetIdx sets e, findSetIdx sets v with
    | some i, some j => if i = j then some false else checkPairs sets rest
    | _, _ => none

/-- `Matcher.verify_matches` (lines 54–71): false on an empty mapping, false
when the number of keys differs from the size of `set().union(*self.sets)`,
otherwise the result of the pair loop. -/
def verify_matches (st : MatcherState) : Option Bool :=
  if st.matchs.isEmpty then some false
  else if st.matchs.length ≠ st.sets.flatten.dedup.length then some false
  else checkPairs st.sets st.matchs

/-- `Matcher.__init__` (lines 16–18): stores the sets and creates the empty
`defaultdict(str)` accumulator. -/
def initState (sets : List (List Element)) : MatcherState :=
  ⟨sets, []⟩

/-- The state of `test_matcher`'s `while True` loop (lines 74–85) after `n`
calls to `generate_matches`, threading the random-oracle call counter. -/
def runAttempts (sets : List (List Element)) (c : Nat → Nat) :
    Nat → MatcherState × Nat
  | 0 => (initState sets, 0)
  | n + 1 =>
    let r := runAttempts sets c n
    generate_matches r.1 c r.2

/-!  Embedding of the `EmailTemplate` class of `src/secret_santa.py`. -/

/-- The class constant `EmailTemplate.DEFAULT_TEMPLATE`, byte for byte as it
appears in the source file. -/
def DEFAULT_TEMPLATE : String := "\n    ðŸŽ„ Wichtel-Alarm fÃ¼r \x7b\x7b sender_name \x7d\x7d! ðŸŽ„\n\n    Ho ho hooo! \n\n    Die Wichtel-Lotterie hat entschieden und Du hast das groÃŸe Los gezogen:\n    \n    ðŸŽ Trommelwirbel... Du bist der geheime Wichtel fÃ¼r...\n    \n    *~*~*~* \x7b\x7b recipient_name \x7d\x7d *~*~*~*\n\n    Ein paar wichtige Wichtel-Regeln:\n    ðŸ¤« Pssst! Absolutes Stillschweigen ist Wichtel-Ehrensache!\n    ðŸŽ¨ Sei kreativ - die besten Geschenke kommen von Herzen\n    ðŸŒŸ Mach\x27s mysteriÃ¶s - lass Dir was Besonderes einfallen\n    \n    Budget: 20 - 30 Euro\n    \n    Viel SpaÃŸ beim heimlichen Planen und Basteln! ðŸŽ…\n    \n    FrÃ¶hliche Wichtel-GrÃ¼ÃŸe,\n    Dein Christkind-Bot ðŸŽ„âœ¨\n    \n    P.S.: Falls Du Fragen hast, antworte einfach nicht auf diese Mail - \n    der Wichtel-Bot kann leider keine Antworten lesen ðŸ¤–\n    "

/-- A `jinja2.Template` value, holding its source text. -/
structure Jinja where
  source : String
deriving Repr, DecidableEq

/-- `Template.render(sender_name=…, recipient_name=…)`: substitute the two
placeholders of the template. -/
def renderTemplate (t : Jinja) (sender recipient : String) : String :=
  ((t.source.replace "\x7b\x7b sender_name \x7d\x7d" sender).replace
    "\x7b\x7b recipient_name \x7d\x7d" recipient)

/-- The observable outcome of `EmailTemplate.__init__`: the stored template
and whether `logging.warning` was called. -/
structure EmailTemplateState where
  template : Jinja
  warned : Bool
deriving Repr, DecidableEq

/-- `EmailTemplate.__init__` (lines 55–64 of `secret_santa.py`).  The file
system is modelled as `fs : String → Option String` (`none` = the `open`
call raises `FileNotFoundError`, which the constructor catches, logging a
warning and falling back to the default template). -/
def emailTemplateInit (fs : String → Option String) :
    Option String → EmailTemplateState
  | some path =>
    match fs path with
    | some content => ⟨⟨content⟩, false⟩
    | none => ⟨⟨DEFAULT_TEMPLATE⟩, true⟩
  | none => ⟨⟨DEFAULT_TEMPLATE⟩, false⟩

/-!  Helper lemmas about the association-list model of the `matches` dict. -/

lemma map_update_of_not_mem_keys {m : List (Element × Element)} {k v : Element}
    (h : k ∉ keysOf m) :
    m.map (fun p => if p.1 = k then (k, v) else p) = m := by
  have hpt : ∀ p ∈ m, (if p.1 = k then (k, v) else p) = p := by
    intro p hp
    rw [if_neg]
    intro hpk
    exact h (hpk ▸ List.mem_map_of_mem Prod.fst hp)
  calc m.map (fun p => if p.1 = k then (k, v) else p)
      = m.map id := List.map_congr_left hpt
    _ = m := List.map_id m

lemma mem_updateMatch {m : List (Element × Element)} {k v : Element}
    {p : Element × Element} (h : p ∈ updateMatch m k v) :
    p = (k, v) ∨ p ∈ m := by
  unfold updateMatch at h
  split at h
  · rcases List.mem_map.mp h with ⟨q, hq, hqe⟩
    by_cases hqk : q.1 = k
    · rw [if_pos hqk] at hqe
      exact Or.inl hqe.symm
    · rw [if_neg hqk] at hqe
      exact Or.inr (hqe ▸ hq)
  · rcases List.mem_append.mp h with h' | h'
    · exact Or.inr h'
    · exact Or.inl (List.mem_singleton.mp h')

lemma keysOf_updateMatch_of_mem {m : List (Element × Element)} {k v : Element}
    (h : k ∈ keysOf m) : keysOf (updateMatch m k v) = keysOf m := by
  unfold updateMatch
  rw [if_pos h]
  unfold keysOf
  rw [List.map_map]
  refine List.map_congr_left ?_
  intro p _
  by_cases hpk : p.1 = k
  · simp [hpk]
  · simp [hpk]

lemma keysOf_updateMatch_of_not_mem {m : List (Element × Element)}
    {k v : Element} (h : k ∉ keysOf m) :
    keysOf (updateMatch m k v) = keysOf m ++ [k] := by
  unfold updateMatch
  rw [if_neg h]
  unfold keysOf
  simp

lemma mem_keysOf_updateMatch {m : List (Element × Element)} {k v a : Element}
    (h : a ∈ keysOf m) : a ∈ keysOf (updateMatch m k v) := by
  by_cases hk : k ∈ keysOf m
  · rw [keysOf_updateMatch_of_mem hk]; exact h
  · rw [keysOf_updateMatch_of_not_mem hk]
    exact List.mem_append_left _ h

lemma nodup_keysOf_updateMatch {m : List (Element × Element)} {k v : Element}
    (h : (keysOf m).Nodup) : (keysOf (updateMatch m k v)).Nodup := by
  by_cases hk : k ∈ keysOf m
  · rw [keysOf_updateMatch_of_mem hk]; exact h
  · rw [keysOf_updateMatch_of_not_mem hk]
    simpa [List.nodup_append] using ⟨h, hk⟩

lemma mem_valuesOf_map_update {m : List (Element × Element)} {k v x : Element}
    (h : x ∈ valuesOf (m.map (fun p => if p.1 = k then (k, v) else p))) :
    x = v ∨ x ∈ valuesOf m := by
  unfold valuesOf at h ⊢
  rw [List.map_map] at h
  rcases List.mem_map.mp h with ⟨q, hq, hqe⟩
  by_cases hqk : q.1 = k
  · simp only [Function.comp, hqk, if_pos] at hqe
    exact Or.inl hqe.symm
  · simp only [Function.comp, hqk, if_neg, not_false_iff] at hqe
    exact Or.inr (hqe ▸ List.mem_map_of_mem Prod.snd hq)

lemma nodup_valuesOf_map_update {k v : Element} :
    ∀ {m : List (Element × Element)}, (keysOf m).Nodup →
    (valuesOf m).Nodup → v ∉ valuesOf m →
    (valuesOf (m.map (fun p => if p.1 = k then (k, v) else p))).Nodup := by
  intro m
  induction m with
  | nil => intro _ _ _; simp [valuesOf]
  | cons a t ih =>
    intro hk hv hnv
    have hkc : keysOf (a :: t) = a.1 :: keysOf t := rfl
    have hvc : valuesOf (a :: t) = a.2 :: valuesOf t := rfl
    rw [hkc] at hk
    rw [hvc] at hv hnv
    rcases List.nodup_cons.mp hk with ⟨hk1, hkt⟩
    rcases List.nodup_cons.mp hv with ⟨hv1, hvt⟩
    have hnv1 : v ≠ a.2 := by
      intro he
      exact hnv (he ▸ List.mem_cons_self _ _)
    have hnvt : v ∉ valuesOf t := by
      intro hmem
      exact hnv (List.mem_cons_of_mem _ hmem)
    by_cases hak : a.1 = k
    · have hknt : k ∉ keysOf t := hak ▸ hk1
      rw [List.map_cons, if_pos hak, map_update_of_not_mem_keys hknt]
      have : valuesOf ((k, v) :: t) = v :: valuesOf t := rfl
      rw [this]
      exact List.nodup_cons.mpr ⟨hnvt, hvt⟩
    · rw [List.map_cons, if_neg hak]
      have : valuesOf (a :: t.map (fun p => if p.1 = k then (k, v) else p)) =
          a.2 :: valuesOf (t.map (fun p => if p.1 = k then (k, v) else p)) := rfl
      rw [this]
      refine List.nodup_cons.mpr ⟨?_, ih hkt hvt hnvt⟩
      intro hmem
      rcases mem_valuesOf_map_update hmem with he | he
      · exact hnv1 he.symm
      · exact hv1 he

lemma nodup_valuesOf_updateMatch {m : List (Element × Element)}
    {k v : Element} (hk : (keysOf m).Nodup) (hv : (valuesOf m).Nodup)
    (hnv : v ∉ valuesOf m) : (valuesOf (updateMatch m k v)).Nodup := by
  by_cases hkm : k ∈ keysOf m
  · unfold updateMatch
    rw [if_pos hkm]
    exact nodup_valuesOf_map_update hk hv hnv
  · unfold updateMatch
    rw [if_neg hkm]
    have hvale : valuesOf (m ++ [(k, v)]) = valuesOf m ++ [v] := by
      simp [valuesOf]
    rw [hvale, List.nodup_append]
    refine ⟨hv, List.nodup_singleton v, ?_⟩
    intro x hx hx1
    rw [List.mem_singleton] at hx1
    exact hnv (hx1 ▸ hx)

lemma getD_mod_mem {l : List (Element × Nat)} (h : l ≠ []) (i : Nat)
    (d : Element × Nat) : l.getD (i % l.length) d ∈ l := by
  have hlen : 0 < l.length := List.length_pos.mpr h
  have hidx : i % l.length < l.length := Nat.mod_lt _ hlen
  rw [List.getD_eq_getElem?_getD, List.getElem?_eq_getElem hidx]
  exact List.getElem_mem hidx

lemma mem_poolFor {elements rest : List (Element × Nat)} {e : Element}
    {gi : Nat} {m : List (Element × Element)} {q : Element × Nat}
    (h : q ∈ poolFor elements rest e gi m) :
    q.1 ∉ valuesOf m ∧ q.2 ≠ gi ∧ (q ∈ rest ∨ (q ∈ elements ∧ q.1 ≠ e)) := by
  unfold poolFor at h
  split at h
  · rcases List.mem_filter.mp h with ⟨hq, hcond⟩
    rcases of_decide_eq_true hcond with ⟨h1, h2, h3⟩
    exact ⟨h3, h1, Or.inr ⟨hq, h2⟩⟩
  · rcases List.mem_filter.mp h with ⟨hq, hcond⟩
    rcases of_decide_eq_true hcond with ⟨h1, h2⟩
    exact ⟨h2, h1, Or.inl hq⟩

/-!  Invariants of the `generate_matches` worklist loop. -/

lemma genLoop_inv {J : List Element} {elements : List (Element × Nat)}
    (hel : ∀ p ∈ elements, p.1 ∈ J) :
    ∀ (unmatched : List (Element × Nat)) (m : List (Element × Element))
      (c : Nat → Nat) (k : Nat),
    (∀ p ∈ unmatched, p.1 ∈ J) →
    (keysOf m).Nodup → (valuesOf m).Nodup →
    (∀ p ∈ m, p.1 ∈ J ∧ p.2 ∈ J) →
    (keysOf (genLoop elements unmatched m c k).1).Nodup ∧
    (valuesOf (genLoop elements unmatched m c k).1).Nodup ∧
    (∀ p ∈ (genLoop elements unmatched m c k).1, p.1 ∈ J ∧ p.2 ∈ J) := by
  intro unmatched
  induction unmatched with
  | nil =>
    intro m c k _ h1 h2 h3
    exact ⟨h1, h2, h3⟩
  | cons hd rest ih =>
    obtain ⟨e, gi⟩ := hd
    intro m c k hun hk hv hm
    have hune : e ∈ J := hun (e, gi) (List.mem_cons_self _ _)
    have hunr : ∀ p ∈ rest, p.1 ∈ J := fun p hp =>
      hun p (List.mem_cons_of_mem _ hp)
    by_cases hp : poolFor elements rest e gi m = []
    · rw [genLoop, if_pos hp]
      exact ih m c k hunr hk hv hm
    · rw [genLoop, if_neg hp]
      have hqmem := getD_mod_mem hp (c k) ("", 0)
      obtain ⟨hqnv, _, hqloc⟩ := mem_poolFor hqmem
      have hq1 : ((poolFor elements rest e gi m).getD
          (c k % (poolFor elements rest e gi m).length) ("", 0)).1 ∈ J := by
        rcases hqloc with h | h
        · exact hunr _ h
        · exact hel _ h.1
      refine ih _ c (k + 1) hunr (nodup_keysOf_updateMatch hk)
        (nodup_valuesOf_updateMatch hk hv hqnv) ?_
      intro p hpm
      rcases mem_updateMatch hpm with he | he
      · rw [he]
        exact ⟨hune, hq1⟩
      · exact hm p he

lemma genLoop_ne {elements : List (Element × Nat)} :
    ∀ (unmatched : List (Element × Nat)) (m : List (Element × Element))
      (c : Nat → Nat) (k : Nat),
    (unmatched.map Prod.fst).Nodup →
    (∀ p ∈ m, p.1 ≠ p.2) →
    ∀ p ∈ (genLoop elements unmatched m c k).1, p.1 ≠ p.2 := by
  intro unmatched
  induction unmatched with
  | nil =>
    intro m c k _ h
    exact h
  | cons hd rest ih =>
    obtain ⟨e, gi⟩ := hd
    intro m c k hnd hm
    have hnd' : (rest.map Prod.fst).Nodup := (List.nodup_cons.mp hnd).2
    have hemem : e ∉ rest.map Prod.fst := (List.nodup_cons.mp hnd).1
    by_cases hp : poolFor elements rest e gi m = []
    · rw [genLoop, if_pos hp]
      exact ih m c k hnd' hm
    · rw [genLoop, if_neg hp]
      have hqmem := getD_mod_mem hp (c k) ("", 0)
      obtain ⟨_, _, hqloc⟩ := mem_poolFor hqmem
      have hq1 : ((poolFor elements rest e gi m).getD
          (c k % (poolFor elements rest e gi m).length) ("", 0)).1 ≠ e := by
        rcases hqloc with h | h
        · intro he
          exact hemem (he ▸ List.mem_map_of_mem Prod.fst h)
        · exact h.2
      refine ih _ c (k + 1) hnd' ?_
      intro p hpm
      rcases mem_updateMatch hpm with he | he
      · rw [he]
        exact fun hc => hq1 hc.symm
      · exact hm p he

lemma genLoop_keys_mono {elements : List (Element × Nat)} :
    ∀ (unmatched : List (Element × Nat)) (m : List (Element × Element))
      (c : Nat → Nat) (k : Nat) (a : Element),
    a ∈ keysOf m → a ∈ keysOf (genLoop elements unmatched m c k).1 := by
  intro unmatched
  induction unmatched with
  | nil =>
    intro m c k a h
    exact h
  | cons hd rest ih =>
    obtain ⟨e, gi⟩ := hd
    intro m c k a h
    by_cases hp : poolFor elements rest e gi m = []
    · rw [genLoop, if_pos hp]
      exact ih m c k a h
    · rw [genLoop, if_neg hp]
      exact ih _ c (k + 1) a (mem_keysOf_updateMatch h)

/-!  The worklist and the first-containing-set lookup. -/

lemma map_fst_elementsOf (sets : List (List Element)) :
    (elementsOf sets).map Prod.fst = sets.flatten := by
  unfold elementsOf
  rw [List.map_flatten, List.map_map]
  have h : (List.map Prod.fst ∘
      fun p : Nat × List Element => p.2.map (fun e => (e, p.1))) =
      Prod.snd := by
    funext p
    rw [Function.comp_apply, List.map_map]
    have hid : (Prod.fst ∘ fun e : Element => (e, p.1)) = id := by
      funext e
      rfl
    rw [hid, List.map_id]
  rw [h, List.enum_map_snd]

lemma mem_elementsOf_fst {sets : List (List Element)} {p : Element × Nat}
    (h : p ∈ elementsOf sets) : p.1 ∈ sets.flatten := by
  rw [← map_fst_elementsOf]
  exact List.mem_map_of_mem Prod.fst h

lemma findSetIdx_isSome_iff {sets : List (List Element)} {e : Element} :
    (findSetIdx sets e).isSome ↔ e ∈ sets.flatten := by
  unfold findSetIdx
  rw [Option.isSome_map', List.find?_isSome]
  constructor
  · rintro ⟨x, hx, hcont⟩
    have hx2 : x.2 ∈ sets := by
      rw [← List.enum_map_snd sets]
      exact List.mem_map_of_mem Prod.snd hx
    have hme : e ∈ x.2 := by simpa using hcont
    exact List.mem_flatten_of_mem hx2 hme
  · intro h
    rcases List.mem_flatten.mp h with ⟨s, hs, hes⟩
    have : s ∈ sets.enum.map Prod.snd := by
      rw [List.enum_map_snd]
      exact hs
    rcases List.mem_map.mp this with ⟨x, hx, hxs⟩
    exact ⟨x, hx, by simpa [hxs] using hes⟩

lemma checkPairs_eq_true_iff (sets : List (List Element)) :
    ∀ m : List (Element × Element),
    checkPairs sets m = some true ↔
      ∀ p ∈ m, ∃ i j, findSetIdx sets p.1 = some i ∧
        findSetIdx sets p.2 = some j ∧ i ≠ j := by
  intro m
  induction m with
  | nil => simp [checkPairs]
  | cons hd rest ih =>
    obtain ⟨e, v⟩ := hd
    cases h1 : findSetIdx sets e with
    | none => simp [checkPairs, h1]
    | some i =>
      cases h2 : findSetIdx sets v with
      | none => simp [checkPairs, h1, h2]
      | some j =>
        by_cases hij : i = j
        · simp [checkPairs, h1, h2, hij]
        · simp only [checkPairs, h1, h2, if_neg hij]
          rw [ih]
          constructor
          · intro hrest p hpm
            rcases List.mem_cons.mp hpm with he | hp2
            · exact he ▸ ⟨i, j, h1, h2, hij⟩
            · exact hrest p hp2
          · intro hall p hp
            exact hall p (List.mem_cons_of_mem _ hp)

lemma checkPairs_ne_none (sets : List (List Element)) :
    ∀ m : List (Element × Element),
    (∀ p ∈ m, p.1 ∈ sets.flatten ∧ p.2 ∈ sets.flatten) →
    checkPairs sets m ≠ none := by
  intro m
  induction m with
  | nil => simp [checkPairs]
  | cons hd rest ih =>
    obtain ⟨e, v⟩ := hd
    intro h
    have h1 : (findSetIdx sets e).isSome :=
      findSetIdx_isSome_iff.mpr (h (e, v) (List.mem_cons_self _ _)).1
    have h2 : (findSetIdx sets v).isSome :=
      findSetIdx_isSome_iff.mpr (h (e, v) (List.mem_cons_self _ _)).2
    rcases Option.isSome_iff_exists.mp h1 with ⟨i, hi⟩
    rcases Option.isSome_iff_exists.mp h2 with ⟨j, hj⟩
    have hrest : ∀ p ∈ rest, p.1 ∈ sets.flatten ∧ p.2 ∈ sets.flatten :=
      fun p hp => h p (List.mem_cons_of_mem _ hp)
    by_cases hij : i = j
    · simp [checkPairs, hi, hj, hij]
    · simp only [checkPairs, hi, hj, if_neg hij]
      exact ih hrest

/-!  Invariants of the `test_matcher` retry loop. -/

lemma generate_matches_sets (st : MatcherState) (c : Nat → Nat) (k : Nat) :
    (generate_matches st c k).1.sets = st.sets := rfl

lemma runAttempts_sets (sets : List (List Element)) (c : Nat → Nat) :
    ∀ n, (runAttempts sets c n).1.sets = sets := by
  intro n
  induction n with
  | zero => rfl
  | succ n ih =>
    rw [runAttempts]
    rw [generate_matches_sets]
    exact ih

lemma runAttempts_inv (sets : List (List Element)) (c : Nat → Nat) :
    ∀ n,
    (keysOf (runAttempts sets c n).1.matchs).Nodup ∧
    (valuesOf (runAttempts sets c n).1.matchs).Nodup ∧
    (∀ p ∈ (runAttempts sets c n).1.matchs,
      p.1 ∈ sets.flatten ∧ p.2 ∈ sets.flatten) := by
  intro n
  induction n with
  | zero =>
    refine ⟨List.nodup_nil, List.nodup_nil, ?_⟩
    intro p hp
    exact absurd hp (List.not_mem_nil p)
  | succ n ih =>
    obtain ⟨ihk, ihv, ihm⟩ := ih
    rw [runAttempts]
    have hsets := runAttempts_sets sets c n
    unfold generate_matches
    rw [hsets]
    exact genLoop_inv (fun p hp => mem_elementsOf_fst hp) (elementsOf sets)
      (runAttempts sets c n).1.matchs c (runAttempts sets c n).2
      (fun p hp => mem_elementsOf_fst hp) ihk ihv ihm

lemma runAttempts_ne (sets : List (List Element)) (c : Nat → Nat)
    (hnd : sets.flatten.Nodup) :
    ∀ n, ∀ p ∈ (runAttempts sets c n).1.matchs, p.1 ≠ p.2 := by
  intro n
  induction n with
  | zero =>
    intro p hp
    exact absurd hp (List.not_mem_nil p)
  | succ n ih =>
    rw [runAttempts]
    have hsets := runAttempts_sets sets c n
    unfold generate_matches
    rw [hsets]
    have hmnd : ((elementsOf sets).map Prod.fst).Nodup := by
      rw [map_fst_elementsOf]
      exact hnd
    exact genLoop_ne (elementsOf sets)
      (runAttempts sets c n).1.matchs c (runAttempts sets c n).2 hmnd ih

lemma verify_matches_eq_true_iff (st : MatcherState) :
    verify_matches st = some true ↔
      st.matchs ≠ [] ∧
      st.matchs.length = st.sets.flatten.dedup.length ∧
      ∀ p ∈ st.matchs, ∃ i j, findSetIdx st.sets p.1 = some i ∧
        findSetIdx st.sets p.2 = some j ∧ i ≠ j := by
  unfold verify_matches
  by_cases h1 : st.matchs.isEmpty
  · rw [if_pos h1]
    simp [List.isEmpty_iff.mp h1]
  · rw [if_neg h1]
    have hne : st.matchs ≠ [] := fun he => h1 (List.isEmpty_iff.mpr he)
    by_cases h2 : st.matchs.length = st.sets.flatten.dedup.length
    · rw [if_neg (fun hc => hc h2), checkPairs_eq_true_iff]
      constructor
      · intro h3
        exact ⟨hne, h2, h3⟩
      · intro h3
        exact h3.2.2
    · rw [if_pos h2]
      simp [h2]

lemma genLoop_nodup (elements : List (Element × Nat))
    (unmatched : List (Element × Nat)) (m : List (Element × Element))
    (c : Nat → Nat) (k : Nat) (hk : (keysOf m).Nodup)
    (hv : (valuesOf m).Nodup) :
    (keysOf (genLoop elements unmatched m c k).1).Nodup ∧
    (valuesOf (genLoop elements unmatched m c k).1).Nodup := by
  have h := genLoop_inv
    (J := elements.map Prod.fst ++ unmatched.map Prod.fst ++
      keysOf m ++ valuesOf m)
    (fun p hp => by
      simp only [List.mem_append]
      exact Or.inl (Or.inl (Or.inl (List.mem_map_of_mem Prod.fst hp))))
    unmatched m c k
    (fun p hp => by
      simp only [List.mem_append]
      exact Or.inl (Or.inl (Or.inr (List.mem_map_of_mem Prod.fst hp))))
    hk hv
    (fun p hp => by
      simp only [List.mem_append]
      exact ⟨Or.inl (Or.inr (List.mem_map_of_mem Prod.fst hp)),
        Or.inr (List.mem_map_of_mem Prod.snd hp)⟩)
  exact ⟨h.1, h.2.1⟩

lemma elementsOf_eq_nil {sets : List (List Element)}
    (h : sets.flatten = []) : elementsOf sets = [] := by
  have := map_fst_elementsOf sets
  rw [h] at this
  exact List.map_eq_nil_iff.mp this

lemma genLoop_same_idx (elements : List (Element × Nat)) (g0 : Nat)
    (hel : ∀ p ∈ elements, p.2 = g0) :
    ∀ (unmatched : List (Element × Nat)) (m : List (Element × Element))
      (c : Nat → Nat) (k : Nat),
    (∀ p ∈ unmatched, p.2 = g0) →
    (genLoop elements unmatched m c k).1 = m := by
  intro unmatched
  induction unmatched with
  | nil =>
    intro m c k _
    rfl
  | cons hd rest ih =>
    obtain ⟨e, gi⟩ := hd
    intro m c k hun
    have hgi : gi = g0 := hun (e, gi) (List.mem_cons_self _ _)
    have hunr : ∀ p ∈ rest, p.2 = g0 := fun p hp =>
      hun p (List.mem_cons_of_mem _ hp)
    have hpool : poolFor elements rest e gi m = [] := by
      unfold poolFor
      have hf1 : rest.filter
          (fun p => decide (p.2 ≠ gi ∧ p.1 ∉ valuesOf m)) = [] := by
        rw [List.filter_eq_nil_iff]
        intro p hp hcond
        exact (of_decide_eq_true hcond).1 ((hunr p hp).trans hgi.symm)
      have hf2 : elements.filter
          (fun p => decide (p.2 ≠ gi ∧ p.1 ≠ e ∧ p.1 ∉ valuesOf m)) = [] := by
        rw [List.filter_eq_nil_iff]
        intro p hp hcond
        exact (of_decide_eq_true hcond).1 ((hel p hp).trans hgi.symm)
      rw [if_pos hf1]
      exact hf2
    rw [genLoop, if_pos hpool]
    exact ih m c k hunr

lemma mem_elementsOf_snd_single {g : List Element} {p : Element × Nat}
    (h : p ∈ elementsOf [g]) : p.2 = 0 := by
  unfold elementsOf at h
  simp only [List.enum, List.enumFrom, List.map_cons, List.map_nil,
    List.flatten_cons, List.flatten_nil, List.append_nil] at h
  rcases List.mem_map.mp h with ⟨e, _, he⟩
  rw [← he]

/-- C1: for every valid input (at least two non-empty groups, no group holding
a strict majority of the universe), whenever the `test_matcher` retry loop
returns — i.e. some attempt `n ≥ 1` passes `verify_matches` — the returned
assignment has exactly one key for every element of the universe
(`size(Assignment) = size(Universe)`, keys pairwise distinct and covering the
universe), its set of values equals the universe (a bijection), and for every
key the first set containing the key differs from the first set containing
its value. -/
theorem generate_returns_valid_assignment
    (sets : List (List Element)) (c : Nat → Nat) (n : Nat)
    (hgroups : 2 ≤ (sets.filter (fun g => !g.isEmpty)).length)
    (hmaj : ∀ g ∈ sets, 2 * g.length ≤ sets.flatten.length)
    (hn : 1 ≤ n)
    (hret : verify_matches (runAttempts sets c n).1 = some true) :
    (runAttempts sets c n).1.matchs.length = sets.flatten.dedup.length ∧
    (keysOf (runAttempts sets c n).1.matchs).Nodup ∧
    (∀ e, e ∈ keysOf (runAttempts sets c n).1.matchs ↔ e ∈ sets.flatten) ∧
    (valuesOf (runAttempts sets c n).1.matchs).Nodup ∧
    (∀ e, e ∈ valuesOf (runAttempts sets c n).1.matchs ↔ e ∈ sets.flatten) ∧
    (∀ p ∈ (runAttempts sets c n).1.matchs,
      ∃ i j, findSetIdx sets p.1 = some i ∧
        findSetIdx sets p.2 = some j ∧ i ≠ j) := by
  have hs := runAttempts_sets sets c n
  obtain ⟨hk, hv, hm⟩ := runAttempts_inv sets c n
  rw [verify_matches_eq_true_iff, hs] at hret
  obtain ⟨hne, hlen, hcross⟩ := hret
  have hklen : sets.flatten.dedup.length ≤
      (keysOf (runAttempts sets c n).1.matchs).length := by
    unfold keysOf
    rw [List.length_map, hlen]
  have hksub : keysOf (runAttempts sets c n).1.matchs ⊆
      sets.flatten.dedup := by
    intro a ha
    rcases List.mem_map.mp ha with ⟨p, hp, hpa⟩
    exact List.mem_dedup.mpr (hpa ▸ (hm p hp).1)
  have hkperm := (List.subperm_of_subset hk hksub).perm_of_length_le hklen
  have hvlen : sets.flatten.dedup.length ≤
      (valuesOf (runAttempts sets c n).1.matchs).length := by
    unfold valuesOf
    rw [List.length_map, hlen]
  have hvsub : valuesOf (runAttempts sets c n).1.matchs ⊆
      sets.flatten.dedup := by
    intro a ha
    rcases List.mem_map.mp ha with ⟨p, hp, hpa⟩
    exact List.mem_dedup.mpr (hpa ▸ (hm p hp).2)
  have hvperm := (List.subperm_of_subset hv hvsub).perm_of_length_le hvlen
  refine ⟨hlen, hk, ?_, hv, ?_, hcross⟩
  · intro e
    exact hkperm.mem_iff.trans List.mem_dedup
  · intro e
    exact hvperm.mem_iff.trans List.mem_dedup

/-- Witness for C1: on groups `[{A}, {B}]` with the all-zeros oracle the
first attempt already validates, and the theorem's conclusions hold there. -/
theorem generate_returns_valid_assignment_witness :
    (2 ≤ (([["A"], ["B"]] : List (List Element)).filter
        (fun g => !g.isEmpty)).length) ∧
    (∀ g ∈ ([["A"], ["B"]] : List (List Element)),
      2 * g.length ≤ ([["A"], ["B"]] : List (List Element)).flatten.length) ∧
    (1 ≤ 1) ∧
    (verify_matches (runAttempts [["A"], ["B"]] (fun _ => 0) 1).1 =
      some true) ∧
    ((runAttempts [["A"], ["B"]] (fun _ => 0) 1).1.matchs.length =
      ([["A"], ["B"]] : List (List Element)).flatten.dedup.length ∧
    (keysOf (runAttempts [["A"], ["B"]] (fun _ => 0) 1).1.matchs).Nodup ∧
    (∀ e, e ∈ keysOf (runAttempts [["A"], ["B"]] (fun _ => 0) 1).1.matchs ↔
      e ∈ ([["A"], ["B"]] : List (List Element)).flatten) ∧
    (valuesOf (runAttempts [["A"], ["B"]] (fun _ => 0) 1).1.matchs).Nodup ∧
    (∀ e, e ∈ valuesOf (runAttempts [["A"], ["B"]] (fun _ => 0) 1).1.matchs ↔
      e ∈ ([["A"], ["B"]] : List (List Element)).flatten) ∧
    (∀ p ∈ (runAttempts [["A"], ["B"]] (fun _ => 0) 1).1.matchs,
      ∃ i j, findSetIdx [["A"], ["B"]] p.1 = some i ∧
        findSetIdx [["A"], ["B"]] p.2 = some j ∧ i ≠ j)) :=
  ⟨by decide, by decide, by decide, by decide,
    generate_returns_valid_assignment [["A"], ["B"]] (fun _ => 0) 1
      (by decide) (by decide) (by decide) (by decide)⟩

/-- C2 counterexample: an assignment whose keys cover the whole universe but
whose values contain a duplicate (`C` is the target of both `A` and `B`)
passes `verify_matches` with `true` — the claimed distinct-target-count check
does not exist; the code only compares the number of keys with the universe
size. -/
theorem verify_matches_misses_duplicate_values :
    verify_matches ⟨[["A", "B"], ["C", "D"]],
        [("A", "C"), ("B", "C"), ("C", "A"), ("D", "B")]⟩ = some true ∧
    keysOf [("A", "C"), ("B", "C"), ("C", "A"), ("D", "B")] =
      ([["A", "B"], ["C", "D"]] : List (List Element)).flatten ∧
    ¬ (valuesOf [("A", "C"), ("B", "C"), ("C", "A"), ("D", "B")]).Nodup := by
  decide

/-- C2 (amended): `verify_matches` checks exactly non-emptiness, the equality
between the number of keys and the universe size, and the cross-group
constraint for every key–value pair; it does not check co-domain injectivity
(no distinct-target count is computed), so a duplicate-valued assignment with
full key coverage can pass. -/
theorem verify_matches_characterization (st : MatcherState) :
    verify_matches st = some true ↔
      st.matchs ≠ [] ∧
      st.matchs.length = st.sets.flatten.dedup.length ∧
      ∀ p ∈ st.matchs, ∃ i j, findSetIdx st.sets p.1 = some i ∧
        findSetIdx st.sets p.2 = some j ∧ i ≠ j := by
  rw [verify_matches_eq_true_iff]

/-- Witness for C2 (amended): the characterization applied to a concrete
state. -/
theorem verify_matches_characterization_witness :
    verify_matches ⟨[["A"], ["B"]], [("A", "B"), ("B", "A")]⟩ = some true ↔
      ([("A", "B"), ("B", "A")] : List (Element × Element)) ≠ [] ∧
      ([("A", "B"), ("B", "A")] : List (Element × Element)).length =
        ([["A"], ["B"]] : List (List Element)).flatten.dedup.length ∧
      ∀ p ∈ ([("A", "B"), ("B", "A")] : List (Element × Element)),
        ∃ i j, findSetIdx [["A"], ["B"]] p.1 = some i ∧
          findSetIdx [["A"], ["B"]] p.2 = some j ∧ i ≠ j :=
  verify_matches_characterization ⟨[["A"], ["B"]], [("A", "B"), ("B", "A")]⟩

/-- C3 counterexample: on groups `[{A,B}, {C}]` with the all-zeros oracle the
first attempt fails validation, yet the accumulator entering the second
attempt still holds the failed attempt's entries `A→C, C→A` — attempts do not
start from an empty assignment. -/
theorem failed_attempt_not_discarded :
    verify_matches (runAttempts [["A", "B"], ["C"]] (fun _ => 0) 1).1 =
      some false ∧
    (runAttempts [["A", "B"], ["C"]] (fun _ => 0) 1).1.matchs =
      [("A", "C"), ("C", "A")] ∧
    (runAttempts [["A", "B"], ["C"]] (fun _ => 0) 1).1.matchs ≠ [] := by
  decide

/-- C3 (amended): the `Matcher` reuses one mutable accumulator for its whole
lifetime: `generate_matches` leaves `self.sets` untouched and never removes
an existing key from `self.matches`, so a failed attempt's entries are
carried over into the next attempt rather than discarded; its only side
effect is mutating that shared accumulator. -/
theorem generate_matches_frame (st : MatcherState) (c : Nat → Nat) (k : Nat) :
    (generate_matches st c k).1.sets = st.sets ∧
    ∀ a, a ∈ keysOf st.matchs →
      a ∈ keysOf (generate_matches st c k).1.matchs := by
  refine ⟨rfl, ?_⟩
  intro a h
  exact genLoop_keys_mono (elementsOf st.sets) st.matchs c k a h

/-- Witness for C3 (amended): applied to a state already holding key `A`. -/
theorem generate_matches_frame_witness :
    (generate_matches ⟨[["A", "B"], ["C"]], [("A", "C")]⟩
      (fun _ => 0) 0).1.sets = [["A", "B"], ["C"]] ∧
    "A" ∈ keysOf (generate_matches ⟨[["A", "B"], ["C"]], [("A", "C")]⟩
      (fun _ => 0) 0).1.matchs :=
  ⟨(generate_matches_frame ⟨[["A", "B"], ["C"]], [("A", "C")]⟩
      (fun _ => 0) 0).1,
    (generate_matches_frame ⟨[["A", "B"], ["C"]], [("A", "C")]⟩
      (fun _ => 0) 0).2 "A" (by decide)⟩

/-- C4: with a single non-empty group every candidate pool is empty (both
pools require a different set index), so every attempt leaves the accumulator
empty, every attempt fails `verify_matches`, and the `test_matcher` retry
loop never exits, for every random oracle. -/
theorem single_group_never_returns (g : List Element) (c : Nat → Nat)
    (n : Nat) (hg : g ≠ []) (hn : 1 ≤ n) :
    (runAttempts [g] c n).1.matchs = [] ∧
    verify_matches (runAttempts [g] c n).1 = some false := by
  have hempty : ∀ m, (runAttempts [g] c m).1.matchs = [] := by
    intro m
    induction m with
    | zero => rfl
    | succ m ih =>
      rw [runAttempts]
      have hsets := runAttempts_sets [g] c m
      show (genLoop (elementsOf (runAttempts [g] c m).1.sets)
          (elementsOf (runAttempts [g] c m).1.sets)
          (runAttempts [g] c m).1.matchs c (runAttempts [g] c m).2).1 = []
      rw [hsets]
      rw [genLoop_same_idx (elementsOf [g]) 0
        (fun p hp => mem_elementsOf_snd_single hp)
        (elementsOf [g]) (runAttempts [g] c m).1.matchs c
        (runAttempts [g] c m).2
        (fun p hp => mem_elementsOf_snd_single hp)]
      exact ih
  refine ⟨hempty n, ?_⟩
  unfold verify_matches
  rw [if_pos (List.isEmpty_iff.mpr (hempty n))]

/-- Witness for C4: the single group `{A,B,C}` at attempt 1. -/
theorem single_group_never_returns_witness :
    (["A", "B", "C"] : List Element) ≠ [] ∧ 1 ≤ 1 ∧
    (runAttempts [["A", "B", "C"]] (fun _ => 0) 1).1.matchs = [] ∧
    verify_matches (runAttempts [["A", "B", "C"]] (fun _ => 0) 1).1 =
      some false :=
  ⟨by decide, by decide,
    single_group_never_returns ["A", "B", "C"] (fun _ => 0) 1
      (by decide) (by decide)⟩

/-- C5: on exactly two singleton groups `[{A}, {B}]` the first attempt of
`generate_matches` produces the 2-cycle `A→B, B→A` whatever the random
oracle does (every candidate pool is a singleton), this assignment passes
`verify_matches`, and the retry loop therefore returns after attempt 1. -/
theorem two_singletons_first_attempt (c : Nat → Nat) :
    (runAttempts [["A"], ["B"]] c 1).1.matchs = [("A", "B"), ("B", "A")] ∧
    verify_matches (runAttempts [["A"], ["B"]] c 1).1 = some true := by
  have h1 : (runAttempts [["A"], ["B"]] c 1).1.matchs =
      [("A", "B"), ("B", "A")] := by
    show (genLoop (elementsOf [["A"], ["B"]]) (elementsOf [["A"], ["B"]])
      [] c 0).1 = [("A", "B"), ("B", "A")]
    have he : elementsOf [["A"], ["B"]] = [("A", 0), ("B", 1)] := by decide
    rw [he]
    rw [genLoop]
    rw [if_neg (by decide : ¬ poolFor [("A", 0), ("B", 1)] [("B", 1)]
      "A" 0 [] = [])]
    have hp1 : poolFor [("A", 0), ("B", 1)] [("B", 1)] "A" 0 [] =
        [("B", 1)] := by decide
    rw [hp1]
    simp only [List.length_cons, List.length_nil, Nat.zero_add, Nat.mod_one]
    have hu1 : updateMatch [] "A" ((([("B", 1)] :
        List (Element × Nat)).getD 0 ("", 0)).1) = [("A", "B")] := by decide
    rw [hu1]
    rw [genLoop]
    rw [if_neg (by decide : ¬ poolFor [("A", 0), ("B", 1)] [] "B" 1
      [("A", "B")] = [])]
    have hp2 : poolFor [("A", 0), ("B", 1)] [] "B" 1 [("A", "B")] =
        [("A", 0)] := by decide
    rw [hp2]
    simp only [List.length_cons, List.length_nil, Nat.zero_add, Nat.mod_one]
    have hu2 : updateMatch [("A", "B")] "B" ((([("A", 0)] :
        List (Element × Nat)).getD 0 ("", 0)).1) =
        [("A", "B"), ("B", "A")] := by decide
    rw [hu2]
    rfl
  refine ⟨h1, ?_⟩
  unfold verify_matches
  rw [h1, runAttempts_sets]
  decide

/-- C6: for disjoint groups with unique elements (pairwise-distinct universe,
the data-model precondition) and every random oracle, no assignment ever maps
an element to itself, after any number of attempts — the primary pool cannot
contain the just-popped element and the widened pool filters it explicitly,
even inside multi-element groups. -/
theorem never_self_assignment (sets : List (List Element)) (c : Nat → Nat)
    (n : Nat) (hnd : sets.flatten.Nodup) :
    ∀ p ∈ (runAttempts sets c n).1.matchs, p.1 ≠ p.2 :=
  runAttempts_ne sets c hnd n

/-- Witness for C6: groups `[{A,B}, {C}]`, where after attempt 1 the pair
`A→C` is recorded and indeed `A ≠ C`. -/
theorem never_self_assignment_witness :
    ([["A", "B"], ["C"]] : List (List Element)).flatten.Nodup ∧
    ("A", "C") ∈ (runAttempts [["A", "B"], ["C"]] (fun _ => 0) 1).1.matchs ∧
    ("A" : Element) ≠ "C" :=
  ⟨by decide, by decide,
    never_self_assignment [["A", "B"], ["C"]] (fun _ => 0) 1 (by decide)
      ("A", "C") (by decide)⟩

/-- C7: throughout a `Matcher`'s lifetime the values of `self.matches` stay
pairwise distinct: (1) after any number of attempts — even failed ones
reusing the same accumulator — the accumulated values are distinct, for every
input; and (2) each single insertion preserves distinctness of the values,
because the inserted candidate is checked against the current values. -/
theorem values_always_distinct :
    (∀ (sets : List (List Element)) (c : Nat → Nat) (n : Nat),
      (valuesOf (runAttempts sets c n).1.matchs).Nodup) ∧
    (∀ (m : List (Element × Element)) (e v : Element),
      (keysOf m).Nodup → (valuesOf m).Nodup → v ∉ valuesOf m →
      (valuesOf (updateMatch m e v)).Nodup) :=
  ⟨fun sets c n => (runAttempts_inv sets c n).2.1,
    fun _ _ _ hk hv hnv => nodup_valuesOf_updateMatch hk hv hnv⟩

/-- Witness for C7: the lifetime part applied after one attempt on
`[{A,B}, {C}]`, and the single-insertion part applied to the accumulator
`[A→C]` with insertion `C→B`. -/
theorem values_always_distinct_witness :
    (valuesOf (runAttempts [["A", "B"], ["C"]] (fun _ => 0) 1).1.matchs).Nodup ∧
    ((keysOf [("A", "C")]).Nodup ∧ (valuesOf [("A", "C")]).Nodup ∧
      ("B" : Element) ∉ valuesOf [("A", "C")] ∧
      (valuesOf (updateMatch [("A", "C")] "C" "B")).Nodup) :=
  ⟨values_always_distinct.1 [["A", "B"], ["C"]] (fun _ => 0) 1,
    by decide, by decide, by decide,
    values_always_distinct.2 [("A", "C")] "C" "B"
      (by decide) (by decide) (by decide)⟩

/-- C8: constructing an `EmailTemplate` with a custom path whose file does
not exist raises no error: the `FileNotFoundError` is caught, a warning is
logged (`warned = true`), the instance falls back to the default template,
and rendering behaves exactly as if no custom path had been supplied. -/
theorem custom_template_missing_falls_back (fs : String → Option String)
    (p : String) (h : fs p = none) :
    emailTemplateInit fs (some p) = ⟨⟨DEFAULT_TEMPLATE⟩, true⟩ ∧
    ∀ s r, renderTemplate (emailTemplateInit fs (some p)).template s r =
      renderTemplate (emailTemplateInit fs none).template s r := by
  constructor
  · simp only [emailTemplateInit, h]
  · intro s r
    simp only [emailTemplateInit, h]

/-- Witness for C8: an empty file system and the path `missing.txt`. -/
theorem custom_template_missing_falls_back_witness :
    emailTemplateInit (fun _ => none) (some "missing.txt") =
      ⟨⟨DEFAULT_TEMPLATE⟩, true⟩ ∧
    ∀ s r, renderTemplate
        (emailTemplateInit (fun _ => none) (some "missing.txt")).template s r =
      renderTemplate (emailTemplateInit (fun _ => none) none).template s r :=
  custom_template_missing_falls_back (fun _ => none) "missing.txt" rfl

/-- C9: `verify_matches` returns false whenever the accumulated assignment is
empty; consequently, on an input with an empty universe (no groups, or all
groups empty) every attempt leaves the assignment empty, every attempt fails
validation, and the retry loop never returns. -/
theorem empty_universe_never_returns :
    (∀ st : MatcherState, st.matchs = [] → verify_matches st = some false) ∧
    (∀ (sets : List (List Element)) (c : Nat → Nat) (n : Nat),
      sets.flatten = [] →
      (runAttempts sets c n).1.matchs = [] ∧
      verify_matches (runAttempts sets c n).1 = some false) := by
  have hfirst : ∀ st : MatcherState, st.matchs = [] →
      verify_matches st = some false := by
    intro st hst
    unfold verify_matches
    rw [if_pos (List.isEmpty_iff.mpr hst)]
  refine ⟨hfirst, ?_⟩
  intro sets c n hU
  have hempty : ∀ m, (runAttempts sets c m).1.matchs = [] := by
    intro m
    induction m with
    | zero => rfl
    | succ m ih =>
      rw [runAttempts]
      have hsets := runAttempts_sets sets c m
      show (genLoop (elementsOf (runAttempts sets c m).1.sets)
          (elementsOf (runAttempts sets c m).1.sets)
          (runAttempts sets c m).1.matchs c (runAttempts sets c m).2).1 = []
      rw [hsets, elementsOf_eq_nil hU]
      exact ih
  exact ⟨hempty n, hfirst _ (hempty n)⟩

/-- Witness for C9: the state with the empty accumulator, and the input
consisting of one empty group after one attempt. -/
theorem empty_universe_never_returns_witness :
    verify_matches ⟨[["A"], ["B"]], []⟩ = some false ∧
    (([[]] : List (List Element)).flatten = [] ∧
      (runAttempts [[]] (fun _ => 0) 1).1.matchs = [] ∧
      verify_matches (runAttempts [[]] (fun _ => 0) 1).1 = some false) :=
  ⟨empty_universe_never_returns.1 ⟨[["A"], ["B"]], []⟩ rfl,
    by decide,
    empty_universe_never_returns.2 [[]] (fun _ => 0) 1 (by decide)⟩

/-- C10: every key and every value of an assignment produced by
`generate_matches` on the `Matcher`'s own sets lies in some input set, so the
two first-containing-set searches of `verify_matches` always succeed
(`findSetIdx` is `some`) and the `StopIteration` branch — `verify_matches`
evaluating to `none` — is unreachable on such assignments. -/
theorem verify_lookups_always_succeed (sets : List (List Element))
    (c : Nat → Nat) (n : Nat) :
    (∀ p ∈ (runAttempts sets c n).1.matchs,
      p.1 ∈ sets.flatten ∧ p.2 ∈ sets.flatten ∧
      (findSetIdx sets p.1).isSome ∧ (findSetIdx sets p.2).isSome) ∧
    verify_matches (runAttempts sets c n).1 ≠ none := by
  obtain ⟨_, _, hm⟩ := runAttempts_inv sets c n
  constructor
  · intro p hp
    obtain ⟨h1, h2⟩ := hm p hp
    exact ⟨h1, h2, findSetIdx_isSome_iff.mpr h1, findSetIdx_isSome_iff.mpr h2⟩
  · unfold verify_matches
    by_cases h1 : (runAttempts sets c n).1.matchs.isEmpty
    · rw [if_pos h1]
      exact Option.some_ne_none false
    · rw [if_neg h1]
      by_cases h2 : (runAttempts sets c n).1.matchs.length ≠
          (runAttempts sets c n).1.sets.flatten.dedup.length
      · rw [if_pos h2]
        exact Option.some_ne_none false
      · rw [if_neg h2]
        rw [runAttempts_sets]
        exact checkPairs_ne_none sets (runAttempts sets c n).1.matchs hm

/-- Witness for C10: after one attempt on `[{A}, {B}]` the pair `A→B` is in
the assignment, both lookups succeed, and `verify_matches` is not `none`. -/
theorem verify_lookups_always_succeed_witness :
    ((("A", "B") : Element × Element) ∈
      (runAttempts [["A"], ["B"]] (fun _ => 0) 1).1.matchs ∧
    ("A" : Element) ∈ ([["A"], ["B"]] : List (List Element)).flatten ∧
    ("B" : Element) ∈ ([["A"], ["B"]] : List (List Element)).flatten ∧
    (findSetIdx [["A"], ["B"]] "A").isSome ∧
    (findSetIdx [["A"], ["B"]] "B").isSome) ∧
    verify_matches (runAttempts [["A"], ["B"]] (fun _ => 0) 1).1 ≠ none :=
  ⟨⟨by decide,
    (verify_lookups_always_succeed [["A"], ["B"]] (fun _ => 0) 1).1
      ("A", "B") (by decide)⟩,
    (verify_lookups_always_succeed [["A"], ["B"]] (fun _ => 0) 1).2⟩

